import Mathlib

/-
Verification of the bidding-tracker core: the in-memory store
(internal/repository/repository.go) and the bidding engine
(internal/biddingService/bidding_service.go), embedded shallowly.

Modelling decisions:
- Go's `float64` amounts are modelled as `ℚ` (the code only compares and
  copies amounts; no arithmetic is performed on them).
- `time.Time` is modelled as an integer timestamp `ℤ`; `t1.Before(t2)`
  is `t1 < t2`.
- Go maps are modelled as total functions; a key missing from `bids` or
  `userItems` reads as `[]`, exactly how the Go code treats it (`!ok ||
  len(..) == 0` at every read, and `append` to a `nil` slice at the write).
  Presence in `items` is significant, so `items` maps to `Option Item`.
- Errors are the five sentinel values of internal/biddingerrors/errors.go;
  `fmt.Errorf(.. %w ..)` wrapping is transparent to `errors.Is`, so a
  wrapped error is identified with its sentinel.
- Store methods that mutate return the new state next to the result.
-/

namespace BiddingTracker

/-- A user's bid on an item (models.Bid). -/
structure Bid where
  bidID : String
  itemID : String
  userID : String
  amount : ℚ
  createdAt : ℤ
  deriving DecidableEq, Repr

/-- An auction item (models.Item). -/
structure Item where
  itemID : String
  title : String
  description : String
  startingPrice : ℚ
  deriving DecidableEq, Repr

/-- The sentinel errors of internal/biddingerrors/errors.go. -/
inductive BiddingError where
  | itemNotFound
  | noBids
  | userNoBids
  | invalidBid
  | bidTooLow
  deriving DecidableEq, Repr

/-- The state of repository.MemoryRepo: its three maps. -/
structure MemoryRepo where
  bids : String → List Bid
  items : String → Option Item
  userItems : String → List String

/-- Point update of a map modelled as a function. -/
def update {α : Type} (f : String → α) (k : String) (v : α) : String → α :=
  fun x => if x = k then v else f x

/-- repository.NewMemoryRepo: all three maps empty. -/
def newMemoryRepo : MemoryRepo :=
  { bids := fun _ => [], items := fun _ => none, userItems := fun _ => [] }

/-- repository.MemoryRepo.RecordBidForItem: fail `ItemNotFound` when the
bid's item is not in `items`; otherwise append the bid to the item's
sequence, and add the item id to the bidder's list unless already there
(the Go loop over `userItems[bid.UserID]` returns early on a match). -/
def recordBidForItem (r : MemoryRepo) (bid : Bid) :
    Except BiddingError Unit × MemoryRepo :=
  match r.items bid.itemID with
  | none => (.error .itemNotFound, r)
  | some _ =>
    let r1 : MemoryRepo :=
      { r with bids := update r.bids bid.itemID (r.bids bid.itemID ++ [bid]) }
    if bid.itemID ∈ r1.userItems bid.userID then
      (.ok (), r1)
    else
      (.ok (), { r1 with
        userItems :=
          update r1.userItems bid.userID
            (r1.userItems bid.userID ++ [bid.itemID]) })

/-- repository.MemoryRepo.GetBidsByItem: fail `NoBids` when the item's bid
sequence is missing or empty, else return it. -/
def getBidsByItem (r : MemoryRepo) (itemID : String) :
    Except BiddingError (List Bid) :=
  if r.bids itemID = [] then .error .noBids else .ok (r.bids itemID)

/-- One step of the GetWinningBid scan: replace the running winner when the
candidate has a strictly greater amount, or an equal amount and a strictly
earlier creation time. -/
def winnerStep (w b : Bid) : Bid :=
  if w.amount < b.amount ∨ (b.amount = w.amount ∧ b.createdAt < w.createdAt)
  then b else w

/-- repository.MemoryRepo.GetWinningBid: fail `NoBids` when the sequence is
missing or empty; otherwise fold `winnerStep` over the sequence starting
from its head. -/
def getWinningBid (r : MemoryRepo) (itemID : String) :
    Except BiddingError Bid :=
  match r.bids itemID with
  | [] => .error .noBids
  | w :: rest => .ok (rest.foldl winnerStep w)

/-- repository.MemoryRepo.GetItemsByUser: fail `NoBidsForBidder` when the
user's item-id list is missing or empty; otherwise resolve each id against
`items`, skipping ids that do not resolve. -/
def getItemsByUser (r : MemoryRepo) (userID : String) :
    Except BiddingError (List Item) :=
  if r.userItems userID = [] then .error .userNoBids
  else .ok ((r.userItems userID).filterMap r.items)

/-- repository.MemoryRepo.AddItem: unconditionally insert or overwrite the
item under its own identifier. -/
def addItem (r : MemoryRepo) (item : Item) : MemoryRepo :=
  { r with items := update r.items item.itemID (some item) }

/-- bidding.BiddingService.validateBid: reject empty ids or non-positive
amount with `InvalidBid`; then consult the current winning bid and reject
with `BidTooLow` any amount not exceeding it; a `NoBids` failure lets the
bid proceed, any other failure propagates. -/
def validateBid (r : MemoryRepo) (itemID userID : String) (amount : ℚ) :
    Except BiddingError Unit :=
  if itemID = "" ∨ userID = "" then .error .invalidBid
  else if amount ≤ 0 then .error .invalidBid
  else
    match getWinningBid r itemID with
    | .ok winning =>
      if amount ≤ winning.amount then .error .bidTooLow else .ok ()
    | .error e =>
      if e = .noBids then .ok () else .error e

/-- bidding.BiddingService.PlaceBid: validate, construct the bid from the
supplied fields plus a fresh id and the current time (both passed in here,
since the Go code takes them from utils.GenerateID and time.Now), record
it, and return it. -/
def placeBid (r : MemoryRepo) (itemID userID : String) (amount : ℚ)
    (newID : String) (now : ℤ) : Except BiddingError Bid × MemoryRepo :=
  match validateBid r itemID userID amount with
  | .error e => (.error e, r)
  | .ok () =>
    let bid : Bid :=
      { bidID := newID, itemID := itemID, userID := userID,
        amount := amount, createdAt := now }
    match recordBidForItem r bid with
    | (.error e, r2) => (.error e, r2)
    | (.ok (), r2) => (.ok bid, r2)

/-- States reachable from the fresh store by the store's mutating
operations (the read operations do not change state, and the engine's
`placeBid` mutates only through `recordBidForItem`). -/
inductive Reachable : MemoryRepo → Prop where
  | init : Reachable newMemoryRepo
  | record (r : MemoryRepo) (b : Bid) :
      Reachable r → Reachable (recordBidForItem r b).2
  | add (r : MemoryRepo) (i : Item) :
      Reachable r → Reachable (addItem r i)

/-- Sequential execution of a batch of RecordBidForItem calls: the store's
exclusive lock totally orders concurrent writers, so any concurrent batch
is equivalent to running them in some sequence; stop at the first failure. -/
def recordSeq (r : MemoryRepo) : List Bid → Except BiddingError Unit × MemoryRepo
  | [] => (.ok (), r)
  | b :: bs =>
    match recordBidForItem r b with
    | (.ok _, r2) => recordSeq r2 bs
    | (.error e, r2) => (.error e, r2)

/-- The running winner `w` is at least as good as `b` under the scan's
order: `b` has no greater amount, and no earlier creation time at an equal
amount. -/
def dominates (w b : Bid) : Prop :=
  b.amount ≤ w.amount ∧ (b.amount = w.amount → w.createdAt ≤ b.createdAt)

/-- Scenario state for the winner-selection claim: one item with three
recorded bids, two of which tie at the maximum amount. -/
def c1repo : MemoryRepo :=
  { bids := fun i =>
      if i = "item1" then
        [{ bidID := "bL", itemID := "item1", userID := "u0",
           amount := 150, createdAt := 1 },
         { bidID := "bA", itemID := "item1", userID := "uA",
           amount := 200, createdAt := 5 },
         { bidID := "bB", itemID := "item1", userID := "uB",
           amount := 200, createdAt := 9 }]
      else [],
    items := fun _ => none,
    userItems := fun _ => [] }

/-- The bid `getWinningBid` picks in `c1repo`: the earlier of the two
maximum-amount bids. -/
def c1winner : Bid :=
  { bidID := "bA", itemID := "item1", userID := "uA",
    amount := 200, createdAt := 5 }

/-- Scenario bid on a store with no items, for the frame claim about
failed RecordBidForItem calls. -/
def c10bid : Bid :=
  { bidID := "b0", itemID := "ghost", userID := "u0",
    amount := 10, createdAt := 0 }

/-- Scenario state with one item and one recorded 150-amount bid, for the
BidTooLow branch of PlaceBid. -/
def c2repo : MemoryRepo :=
  { bids := fun i =>
      if i = "item1" then
        [{ bidID := "b1", itemID := "item1", userID := "u1",
           amount := 150, createdAt := 0 }]
      else [],
    items := fun i =>
      if i = "item1" then
        some { itemID := "item1", title := "t", description := "d",
               startingPrice := 100 }
      else none,
    userItems := fun u => if u = "u1" then ["item1"] else [] }

/-- Scenario state reached by adding one item and recording two bids by
the same user on it, for the per-bidder item-set claim. -/
def c7repo : MemoryRepo :=
  (recordBidForItem
    (recordBidForItem
      (addItem newMemoryRepo
        { itemID := "item1", title := "t", description := "d",
          startingPrice := 100 })
      { bidID := "b1", itemID := "item1", userID := "u1",
        amount := 10, createdAt := 0 }).2
    { bidID := "b2", itemID := "item1", userID := "u1",
      amount := 20, createdAt := 1 }).2

/-- Scenario state reached by adding one item and recording one bid on it,
for the bids-imply-item invariant claim. -/
def c8repo : MemoryRepo :=
  (recordBidForItem
    (addItem newMemoryRepo
      { itemID := "item1", title := "t", description := "d",
        startingPrice := 100 })
    { bidID := "b1", itemID := "item1", userID := "u1",
      amount := 10, createdAt := 0 }).2

/-- Scenario state with one item and no bids, for the serialized-batch
claim. -/
def c9repo : MemoryRepo :=
  { bids := fun _ => [],
    items := fun i =>
      if i = "item1" then
        some { itemID := "item1", title := "t", description := "d",
               startingPrice := 100 }
      else none,
    userItems := fun _ => [] }

/-- First of the two concurrent-batch bids, from bidder u1. -/
def c9bid1 : Bid :=
  { bidID := "b1", itemID := "item1", userID := "u1",
    amount := 10, createdAt := 0 }

/-- Second of the two concurrent-batch bids, from bidder u2. -/
def c9bid2 : Bid :=
  { bidID := "b2", itemID := "item1", userID := "u2",
    amount := 11, createdAt := 1 }

section Lemmas

/-- Reading an updated map at the written key gives the new value. -/
theorem update_self {α : Type} (f : String → α) (k : String) (v : α) :
    update f k v k = v := by
  simp [update]

/-- Reading an updated map at a different key gives the old value. -/
theorem update_other {α : Type} (f : String → α) (k k' : String) (v : α)
    (h : k' ≠ k) : update f k v k' = f k' := by
  simp [update, h]

theorem dominates_refl (b : Bid) : dominates b b :=
  ⟨le_refl _, fun _ => le_refl _⟩

theorem dominates_trans {v w b : Bid} (hvw : dominates v w)
    (hwb : dominates w b) : dominates v b := by
  obtain ⟨haw, htw⟩ := hvw
  obtain ⟨hab, htb⟩ := hwb
  refine ⟨le_trans hab haw, fun he => ?_⟩
  have h1 : w.amount = v.amount := le_antisymm haw (he ▸ hab)
  have h2 : b.amount = w.amount := h1 ▸ he
  exact le_trans (htw h1) (htb h2)

theorem winnerStep_dominates_left (w x : Bid) :
    dominates (winnerStep w x) w := by
  unfold winnerStep
  split
  · rename_i hc
    rcases hc with h1 | ⟨h2, h3⟩
    · exact ⟨le_of_lt h1, fun he => absurd (he ▸ h1) (lt_irrefl _)⟩
    · exact ⟨le_of_eq h2.symm, fun _ => le_of_lt h3⟩
  · exact dominates_refl w

theorem winnerStep_dominates_right (w x : Bid) :
    dominates (winnerStep w x) x := by
  unfold winnerStep
  split
  · exact dominates_refl x
  · rename_i hc
    push_neg at hc
    exact hc

theorem foldl_winnerStep_mem (l : List Bid) :
    ∀ w : Bid, l.foldl winnerStep w ∈ w :: l := by
  induction l with
  | nil => intro w; simp
  | cons x t ih =>
    intro w
    have h := ih (winnerStep w x)
    have hfold : (x :: t).foldl winnerStep w = t.foldl winnerStep (winnerStep w x) := rfl
    rw [hfold]
    by_cases hc :
        w.amount < x.amount ∨ (x.amount = w.amount ∧ x.createdAt < w.createdAt)
    · have hs : winnerStep w x = x := by unfold winnerStep; rw [if_pos hc]
      rw [hs] at h ⊢
      exact List.mem_cons_of_mem _ h
    · have hs : winnerStep w x = w := by unfold winnerStep; rw [if_neg hc]
      rw [hs] at h ⊢
      rcases List.mem_cons.mp h with h' | h'
      · rw [h']; exact List.mem_cons_self _ _
      · exact List.mem_cons_of_mem _ (List.mem_cons_of_mem _ h')

theorem foldl_winnerStep_dominates (l : List Bid) :
    ∀ w b : Bid, b ∈ w :: l → dominates (l.foldl winnerStep w) b := by
  induction l with
  | nil =>
    intro w b hb
    rw [List.mem_singleton] at hb
    exact hb ▸ dominates_refl w
  | cons x t ih =>
    intro w b hb
    have hfold : (x :: t).foldl winnerStep w = t.foldl winnerStep (winnerStep w x) := rfl
    rw [hfold]
    have hhead := ih (winnerStep w x) (winnerStep w x) (List.mem_cons_self _ _)
    rcases List.mem_cons.mp hb with hbw | hb'
    · subst hbw
      exact dominates_trans hhead (winnerStep_dominates_left b x)
    · rcases List.mem_cons.mp hb' with hbx | hb''
      · subst hbx
        exact dominates_trans hhead (winnerStep_dominates_right w b)
      · exact ih (winnerStep w x) b (List.mem_cons_of_mem _ hb'')

theorem record_fail_eq (r : MemoryRepo) (b : Bid)
    (h : r.items b.itemID = none) :
    recordBidForItem r b = (.error .itemNotFound, r) := by
  simp [recordBidForItem, h]

theorem record_ok (r : MemoryRepo) (b : Bid)
    (h : (r.items b.itemID).isSome) : (recordBidForItem r b).1 = .ok () := by
  obtain ⟨it, hib⟩ := Option.isSome_iff_exists.mp h
  simp only [recordBidForItem, hib]
  split <;> rfl

theorem record_items_eq (r : MemoryRepo) (b : Bid) :
    (recordBidForItem r b).2.items = r.items := by
  cases hib : r.items b.itemID with
  | none => simp [recordBidForItem, hib]
  | some it =>
    simp only [recordBidForItem, hib]
    split <;> rfl

theorem record_bids_eq (r : MemoryRepo) (b : Bid)
    (h : (r.items b.itemID).isSome) :
    (recordBidForItem r b).2.bids =
      update r.bids b.itemID (r.bids b.itemID ++ [b]) := by
  obtain ⟨it, hib⟩ := Option.isSome_iff_exists.mp h
  simp only [recordBidForItem, hib]
  split <;> rfl

theorem record_userItems_cases (r : MemoryRepo) (b : Bid) (u : String) :
    (recordBidForItem r b).2.userItems u = r.userItems u ∨
      ((recordBidForItem r b).2.userItems u = r.userItems u ++ [b.itemID] ∧
        b.itemID ∉ r.userItems u) := by
  cases hib : r.items b.itemID with
  | none => left; simp [recordBidForItem, hib]
  | some it =>
    simp only [recordBidForItem, hib]
    split
    · left; rfl
    · rename_i hmem
      by_cases hu : u = b.userID
      · subst hu
        right
        exact ⟨update_self _ _ _, hmem⟩
      · left
        exact update_other _ _ _ _ hu

theorem reachable_userItems_nodup {r : MemoryRepo} (hr : Reachable r)
    (u : String) : (r.userItems u).Nodup := by
  induction hr with
  | init => simp [newMemoryRepo]
  | record r' b hr' ih =>
    rcases record_userItems_cases r' b u with h | ⟨h, hmem⟩
    · rw [h]; exact ih
    · rw [h, List.nodup_append]
      refine ⟨ih, List.nodup_singleton _, ?_⟩
      intro x hx hx1
      rw [List.mem_singleton] at hx1
      exact hmem (hx1 ▸ hx)
  | add r' i hr' ih => exact ih

theorem reachable_items_id {r : MemoryRepo} (hr : Reachable r) :
    ∀ id it, r.items id = some it → it.itemID = id := by
  induction hr with
  | init => intro id it h; simp [newMemoryRepo] at h
  | record r' b hr' ih =>
    intro id it h
    rw [record_items_eq] at h
    exact ih id it h
  | add r' i hr' ih =>
    intro id it h
    unfold addItem update at h
    simp only at h
    split at h
    · rename_i hid
      cases h
      exact hid.symm
    · exact ih id it h

theorem reachable_bids_have_item {r : MemoryRepo} (hr : Reachable r) :
    ∀ id, r.bids id ≠ [] → (r.items id).isSome := by
  induction hr with
  | init => intro id h; simp [newMemoryRepo] at h
  | record r' b hr' ih =>
    intro id hne
    rw [record_items_eq]
    cases hib : r'.items b.itemID with
    | none =>
      rw [record_fail_eq r' b hib] at hne
      exact ih id hne
    | some it =>
      have hbids := record_bids_eq r' b (by rw [hib]; rfl)
      rw [hbids] at hne
      by_cases hid : id = b.itemID
      · rw [hid, hib]; rfl
      · rw [update_other _ _ _ _ hid] at hne
        exact ih id hne
  | add r' i hr' ih =>
    intro id hne
    have hbids : (addItem r' i).bids = r'.bids := rfl
    rw [hbids] at hne
    by_cases hid : id = i.itemID
    · unfold addItem
      simp only
      rw [hid, update_self]
      rfl
    · unfold addItem
      simp only
      rw [update_other _ _ _ _ hid]
      exact ih id hne

end Lemmas

/-- C1: when `getWinningBid` succeeds, the returned bid is one of the
item's recorded bids, no recorded bid has a greater amount, and among bids
of equal (maximal) amount the returned one has the earliest creation
time. -/
theorem getWinningBid_max_earliest (r : MemoryRepo) (itemID : String)
    (w : Bid) (h : getWinningBid r itemID = .ok w) :
    w ∈ r.bids itemID ∧
      ∀ b ∈ r.bids itemID,
        b.amount ≤ w.amount ∧
          (b.amount = w.amount → w.createdAt ≤ b.createdAt) := by
  unfold getWinningBid at h
  cases hb : r.bids itemID with
  | nil => rw [hb] at h; exact absurd h (by simp)
  | cons w0 rest =>
    rw [hb] at h
    have hw : rest.foldl winnerStep w0 = w := by
      simpa using h
    constructor
    · exact hw ▸ foldl_winnerStep_mem rest w0
    · intro b hbmem
      have hd := foldl_winnerStep_dominates rest w0 b hbmem
      rw [hw] at hd
      exact ⟨hd.1, hd.2⟩

/-- Witness for C1 at the concrete three-bid store `c1repo`: the bid
returned is `c1winner`, the earlier of the two 200-amount bids. -/
theorem getWinningBid_max_earliest_witness :
    c1winner ∈ c1repo.bids "item1" ∧
      ∀ b ∈ c1repo.bids "item1",
        b.amount ≤ c1winner.amount ∧
          (b.amount = c1winner.amount → c1winner.createdAt ≤ b.createdAt) :=
  getWinningBid_max_earliest c1repo "item1" c1winner rfl

/-- C4: `placeBid` with an empty item id, an empty user id, or a
non-positive amount fails with `InvalidBid` and leaves the store
unchanged. -/
theorem placeBid_invalidBid (r : MemoryRepo) (itemID userID : String)
    (amount : ℚ) (nid : String) (now : ℤ)
    (h : itemID = "" ∨ userID = "" ∨ amount ≤ 0) :
    placeBid r itemID userID amount nid now = (.error .invalidBid, r) := by
  unfold placeBid validateBid
  rcases h with h | h | h
  · simp [h]
  · simp [h]
  · by_cases h2 : itemID = "" ∨ userID = ""
    · simp [h2]
    · simp [h2, h]

/-- Witness for C4: a zero-amount bid on the fresh store is rejected as
`InvalidBid` with the state unchanged. -/
theorem placeBid_invalidBid_witness :
    placeBid newMemoryRepo "item1" "u1" 0 "id1" 0 =
      (.error .invalidBid, newMemoryRepo) :=
  placeBid_invalidBid newMemoryRepo "item1" "u1" 0 "id1" 0
    (Or.inr (Or.inr (le_refl 0)))

/-- C5: the two per-item read paths fail exactly on an empty (or absent)
bid sequence, the only error they report is `NoBids`, and neither consults
the Item collection, so an unknown item and a known item with zero bids
are indistinguishable to them. -/
theorem noBids_iff_empty (r : MemoryRepo) (itemID : String) :
    (getBidsByItem r itemID = .error .noBids ↔ r.bids itemID = []) ∧
    (getWinningBid r itemID = .error .noBids ↔ r.bids itemID = []) ∧
    (∀ e, getBidsByItem r itemID = .error e → e = .noBids) ∧
    (∀ e, getWinningBid r itemID = .error e → e = .noBids) ∧
    (∀ f, getBidsByItem { r with items := f } itemID = getBidsByItem r itemID) ∧
    (∀ f, getWinningBid { r with items := f } itemID = getWinningBid r itemID) := by
  cases hb : r.bids itemID with
  | nil => simp [getBidsByItem, getWinningBid, hb]
  | cons a l => simp [getBidsByItem, getWinningBid, hb]

/-- C10: whenever `recordBidForItem` fails, the store state is returned
unchanged, and the failure is `ItemNotFound`. -/
theorem record_error_state_unchanged (r : MemoryRepo) (b : Bid)
    (e : BiddingError) (h : (recordBidForItem r b).1 = .error e) :
    (recordBidForItem r b).2 = r ∧ e = .itemNotFound := by
  cases hib : r.items b.itemID with
  | none =>
    refine ⟨by simp [recordBidForItem, hib], ?_⟩
    simp [recordBidForItem, hib] at h
    exact h.symm
  | some it =>
    exfalso
    simp only [recordBidForItem, hib] at h
    split at h <;> simp_all

/-- Witness for C10: recording `c10bid` on the fresh store fails with
`ItemNotFound` and returns the fresh store unchanged. -/
theorem record_error_state_unchanged_witness :
    (recordBidForItem newMemoryRepo c10bid).2 = newMemoryRepo ∧
      BiddingError.itemNotFound = BiddingError.itemNotFound :=
  record_error_state_unchanged newMemoryRepo c10bid .itemNotFound rfl

/-- Counterexample to C3 as stated: with a negative amount, `placeBid` on
an item absent from the Item collection fails with `InvalidBid`, not
`ItemNotFound` — the amount check runs before any item lookup. -/
theorem placeBid_missing_item_cex :
    (placeBid newMemoryRepo "ghost" "u1" (-1) "id1" 0).1 =
        .error .invalidBid ∧
      newMemoryRepo.items "ghost" = none ∧ "u1" ≠ "" ∧
      BiddingError.invalidBid ≠ BiddingError.itemNotFound :=
  ⟨rfl, rfl, by decide, by decide⟩

/-- C3 (amended): with a positive amount and non-empty item and bidder
ids, `placeBid` on an item absent from the Item collection fails with
`ItemNotFound` in every reachable state, leaving the state unchanged; a
non-positive amount or an empty id is instead rejected as `InvalidBid`
before the item is consulted. -/
theorem placeBid_missing_item_notFound (r : MemoryRepo) (hr : Reachable r)
    (itemID userID nid : String) (amount : ℚ) (now : ℤ)
    (hi : itemID ≠ "") (hu : userID ≠ "") (ha : 0 < amount)
    (habs : r.items itemID = none) :
    placeBid r itemID userID amount nid now = (.error .itemNotFound, r) := by
  have hbids : r.bids itemID = [] := by
    by_contra hne
    have hsome := reachable_bids_have_item hr itemID hne
    rw [habs] at hsome
    exact absurd hsome (by simp)
  have hval : validateBid r itemID userID amount = .ok () := by
    unfold validateBid getWinningBid
    rw [hbids]
    simp [hi, hu, not_le.mpr ha]
  have hrec :
      recordBidForItem r
        { bidID := nid, itemID := itemID, userID := userID,
          amount := amount, createdAt := now } =
        (.error .itemNotFound, r) :=
    record_fail_eq r _ habs
  unfold placeBid
  rw [hval]
  simp only [hrec]

/-- Witness for the amended C3: a positive bid on an unknown item in the
fresh (reachable) store fails with `ItemNotFound`. -/
theorem placeBid_missing_item_notFound_witness :
    placeBid newMemoryRepo "item1" "u1" 5 "id1" 0 =
      (.error .itemNotFound, newMemoryRepo) :=
  placeBid_missing_item_notFound newMemoryRepo Reachable.init
    "item1" "u1" "id1" 5 0 (by decide) (by decide) (by norm_num) rfl

/-- Counterexample to C6 as stated: AddItem inserts unconditionally under
`item.ItemID`, so a reachable state can hold an Item whose identifier is
the empty string, and there `recordBidForItem` of a bid with empty item id
succeeds instead of failing with `ItemNotFound`. -/
theorem record_emptyID_cex :
    Reachable (addItem newMemoryRepo
      { itemID := "", title := "t", description := "d",
        startingPrice := 1 }) ∧
    (recordBidForItem
        (addItem newMemoryRepo
          { itemID := "", title := "t", description := "d",
            startingPrice := 1 })
        { bidID := "b1", itemID := "", userID := "u1",
          amount := 1, createdAt := 0 }).1 = .ok () :=
  ⟨Reachable.add _ _ Reachable.init, rfl⟩

/-- C6 (amended): `recordBidForItem` of a bid whose item identifier is
empty fails with `ItemNotFound`, unchanged state, in every state whose
Item collection has no entry under the empty identifier — which is every
reachable state in which `addItem` was never called with an item whose
identifier is empty (AddItem inserts unconditionally, so such an entry is
otherwise possible). -/
theorem record_emptyID_notFound (r : MemoryRepo) (b : Bid)
    (hb : b.itemID = "") (hno : r.items "" = none) :
    recordBidForItem r b = (.error .itemNotFound, r) :=
  record_fail_eq r b (by rw [hb]; exact hno)

/-- Witness for the amended C6: on the fresh store, a bid with empty item
id is rejected with `ItemNotFound`. -/
theorem record_emptyID_notFound_witness :
    recordBidForItem newMemoryRepo
        { bidID := "b1", itemID := "", userID := "u1",
          amount := 1, createdAt := 0 } =
      (.error .itemNotFound, newMemoryRepo) :=
  record_emptyID_notFound newMemoryRepo
    { bidID := "b1", itemID := "", userID := "u1",
      amount := 1, createdAt := 0 } rfl rfl

/-- C7: in every reachable state each bidder's item list holds any item
identifier at most once (it is duplicate-free), and consequently the item
list `getItemsByUser` returns never repeats an item identifier. -/
theorem userItems_once (r : MemoryRepo) (hr : Reachable r) (u : String) :
    (r.userItems u).Nodup ∧
      ∀ its, getItemsByUser r u = .ok its → (its.map Item.itemID).Nodup := by
  have hnd := reachable_userItems_nodup hr u
  refine ⟨hnd, ?_⟩
  intro its h
  unfold getItemsByUser at h
  split at h
  · exact absurd h (by simp)
  · have hits : (r.userItems u).filterMap r.items = its := by
      simpa using h
    rw [← hits, List.map_filterMap]
    refine List.Nodup.filterMap ?_ hnd
    intro a a' c hc hc'
    rw [Option.mem_def] at hc hc'
    rw [Option.map_eq_some'] at hc hc'
    obtain ⟨it, hit, hid⟩ := hc
    obtain ⟨it', hit', hid'⟩ := hc'
    have h1 : it.itemID = a := reachable_items_id hr a it hit
    have h2 : it'.itemID = a' := reachable_items_id hr a' it' hit'
    rw [← h1, ← h2, hid, hid']

/-- Witness for C7 at `c7repo`, where bidder u1 bid twice on item1: the
item list of u1 and the result of `getItemsByUser` are duplicate-free. -/
theorem userItems_once_witness :
    (c7repo.userItems "u1").Nodup ∧
      ∀ its, getItemsByUser c7repo "u1" = .ok its →
        (its.map Item.itemID).Nodup :=
  userItems_once c7repo
    (Reachable.record _ _ (Reachable.record _ _
      (Reachable.add _ _ Reachable.init))) "u1"

/-- C8: in every reachable state, an item identifier whose bid sequence is
non-empty is present in the Item collection; the reachability induction
covers each store operation (the read operations leave the state as is). -/
theorem bids_imply_item_exists (r : MemoryRepo) (hr : Reachable r)
    (id : String) (h : r.bids id ≠ []) : (r.items id).isSome :=
  reachable_bids_have_item hr id h

/-- Witness for C8 at `c8repo`, where one bid was recorded on item1: the
item is present. -/
theorem bids_imply_item_exists_witness : (c8repo.items "item1").isSome :=
  bids_imply_item_exists c8repo
    (Reachable.record _ _ (Reachable.add _ _ Reachable.init))
    "item1" (by decide)

/-- C2: with valid inputs, (a) when the item has a current winning bid `w`
and the amount does not exceed `w.amount`, `placeBid` fails with
`BidTooLow` and leaves the state unchanged; (b) when the item exists and
has no recorded bids, `placeBid` succeeds and returns exactly the bid it
constructed from the supplied fields, the fresh id and the timestamp. -/
theorem placeBid_tooLow_or_first (r : MemoryRepo) (itemID userID nid : String)
    (amount : ℚ) (now : ℤ)
    (hi : itemID ≠ "") (hu : userID ≠ "") (ha : 0 < amount) :
    (∀ w, getWinningBid r itemID = .ok w → amount ≤ w.amount →
        placeBid r itemID userID amount nid now = (.error .bidTooLow, r)) ∧
    ((r.items itemID).isSome → r.bids itemID = [] →
        (placeBid r itemID userID amount nid now).1 =
          .ok { bidID := nid, itemID := itemID, userID := userID,
                amount := amount, createdAt := now }) := by
  constructor
  · intro w hw hle
    have hval : validateBid r itemID userID amount = .error .bidTooLow := by
      unfold validateBid
      rw [hw]
      simp [hi, hu, not_le.mpr ha, hle]
    unfold placeBid
    rw [hval]
  · intro hsome hempty
    have hval : validateBid r itemID userID amount = .ok () := by
      unfold validateBid getWinningBid
      rw [hempty]
      simp [hi, hu, not_le.mpr ha]
    have hok :
        (recordBidForItem r
          { bidID := nid, itemID := itemID, userID := userID,
            amount := amount, createdAt := now }).1 = .ok () :=
      record_ok r _ hsome
    unfold placeBid
    rw [hval]
    rcases hrec :
        recordBidForItem r
          { bidID := nid, itemID := itemID, userID := userID,
            amount := amount, createdAt := now } with ⟨fst, r2⟩
    rw [hrec] at hok
    simp only at hok
    subst hok
    simp [hrec]

/-- Witness for C2 at `c2repo` (one item, one 150-amount bid) with a
90-amount attempt by u2: the hypotheses hold and the two branches are
available at these concrete inputs. -/
theorem placeBid_tooLow_or_first_witness :
    (∀ w, getWinningBid c2repo "item1" = .ok w → (90 : ℚ) ≤ w.amount →
        placeBid c2repo "item1" "u2" 90 "idX" 7 =
          (.error .bidTooLow, c2repo)) ∧
    ((c2repo.items "item1").isSome → c2repo.bids "item1" = [] →
        (placeBid c2repo "item1" "u2" 90 "idX" 7).1 =
          .ok { bidID := "idX", itemID := "item1", userID := "u2",
                amount := 90, createdAt := 7 }) :=
  placeBid_tooLow_or_first c2repo "item1" "u2" "idX" 90 7
    (by decide) (by decide) (by norm_num)

/-- Auxiliary induction for C9: starting from any state where the batch's
item exists, sequentially recording a batch of bids for that item
succeeds, grows that item's bid sequence by exactly the batch's length,
and never changes the Item collection. -/
theorem recordSeq_ok (i : String) :
    ∀ (bs : List Bid) (r0 : MemoryRepo),
      (r0.items i).isSome → (∀ b ∈ bs, b.itemID = i) →
      ∃ rf, recordSeq r0 bs = (.ok (), rf) ∧
        (rf.bids i).length = (r0.bids i).length + bs.length ∧
        rf.items = r0.items := by
  intro bs
  induction bs with
  | nil => intro r0 hsome hall; exact ⟨r0, rfl, by simp, rfl⟩
  | cons b bs ih =>
    intro r0 hsome hall
    have hbi : b.itemID = i := hall b (List.mem_cons_self _ _)
    have hsome' : (r0.items b.itemID).isSome := by rw [hbi]; exact hsome
    rcases hrec : recordBidForItem r0 b with ⟨fst, r1⟩
    have hok := record_ok r0 b hsome'
    rw [hrec] at hok
    simp only at hok
    subst hok
    have hbids := record_bids_eq r0 b hsome'
    rw [hrec] at hbids
    have hitems := record_items_eq r0 b
    rw [hrec] at hitems
    obtain ⟨rf, hseq, hlen, hit⟩ :=
      ih r1 (by rw [hitems]; exact hsome)
        (fun x hx => hall x (List.mem_cons_of_mem _ hx))
    refine ⟨rf, ?_, ?_, by rw [hit, hitems]⟩
    · show recordSeq r0 (b :: bs) = (.ok (), rf)
      unfold recordSeq
      rw [hrec]
      exact hseq
    · rw [hlen, hbids, hbi, update_self]
      simp only [List.length_append, List.length_cons, List.length_nil]
      omega

/-- C9: a batch of bids on one existing, previously bid-free item from
distinct bidders, executed in any serial order (the store's exclusive lock
totally orders concurrent writers), all succeed, and `getBidsByItem`
afterwards returns exactly one bid per call — none is lost. -/
theorem serialized_bids_no_lost_updates (r0 : MemoryRepo) (i : String)
    (bs : List Bid)
    (hsome : (r0.items i).isSome) (hall : ∀ b ∈ bs, b.itemID = i)
    (hempty : r0.bids i = []) (_hdistinct : (bs.map Bid.userID).Nodup)
    (hne : bs ≠ []) :
    ∃ rf, recordSeq r0 bs = (.ok (), rf) ∧
      (rf.bids i).length = bs.length ∧
      getBidsByItem rf i = .ok (rf.bids i) := by
  obtain ⟨rf, hseq, hlen, _⟩ := recordSeq_ok i bs r0 hsome hall
  rw [hempty] at hlen
  simp only [List.length_nil, Nat.zero_add] at hlen
  refine ⟨rf, hseq, hlen, ?_⟩
  have hbne : rf.bids i ≠ [] := by
    intro h0
    rw [h0] at hlen
    exact hne (List.length_eq_zero.mp hlen.symm)
  unfold getBidsByItem
  simp [hbne]

/-- Witness for C9 at `c9repo` with the two-bid batch from bidders u1 and
u2: both recordings succeed and two bids are reported. -/
theorem serialized_bids_no_lost_updates_witness :
    ∃ rf, recordSeq c9repo [c9bid1, c9bid2] = (.ok (), rf) ∧
      (rf.bids "item1").length = [c9bid1, c9bid2].length ∧
      getBidsByItem rf "item1" = .ok (rf.bids "item1") :=
  serialized_bids_no_lost_updates c9repo "item1" [c9bid1, c9bid2]
    (by decide) (by decide) rfl (by decide) (by decide)

end BiddingTracker
